import Mathlib

/-!
# Key validation and HWID binding endpoint

Shallow embedding of the request handler exported by `src/api/validate-key.js`
together with the Firestore documents it reads and writes (fields as created by
`createKey` in `src/src/App.js`).

* The `keys` collection group is a list of documents in query order; a document
  reference is the position of the document in that list.
* Timestamps are integers (milliseconds, the value `expires_at.toDate()` and
  `new Date()` compare by).
* A field that may be `null` or absent is an `Option`; JavaScript truthiness of
  such a string field is `truthy`.
* A handler run returns what the caller observes (a response, or an exception that
  escapes the handler), the store afterwards and the store operations issued.
-/

namespace ValidateKey

/-! ## Data model -/

/-- Data of one document of the `keys` collection group. -/
structure KeyRecord where
  key_id : String
  user_email : String
  hwid : Option String
  status : String
  creation_date : Int
  expires_at : Option Int
  duration : Int
deriving DecidableEq, Repr

/-- The `keys` collection group, in query order. -/
abbrev Store := List KeyRecord

/-- The parsed request body: `key` and `hwid` may each be absent. -/
structure Body where
  key : Option String
  hwid : Option String
deriving DecidableEq, Repr

/-- An incoming request: `req.method` and `req.body` (absent when `undefined`). -/
structure Request where
  method : String
  body : Option Body
deriving DecidableEq, Repr

/-- What `res.status(code).json({ status, message })` sends. -/
structure Response where
  code : Nat
  status : String
  message : String
deriving DecidableEq, Repr

/-- How a handler invocation ends for the caller. -/
inductive Outcome
  | responded (r : Response)
  | threw
deriving DecidableEq, Repr

/-- Operations issued against Firestore. -/
inductive StoreOp
  | query (key : String)
  | update (idx : Nat) (hwid : String)
deriving DecidableEq, Repr

/-- Which store operations reject (throw) during a run. -/
structure Faults where
  getFails : Bool
  updateFails : Bool
deriving DecidableEq, Repr

/-- Result of one handler run. -/
structure Run where
  outcome : Outcome
  store : Store
  ops : List StoreOp
deriving DecidableEq, Repr

/-- A healthy store: every operation succeeds. -/
def noFaults : Faults := ⟨false, false⟩

/-! ## The eight responses of the handler -/

def methodNotAllowed : Response := ⟨405, "error", "Method Not Allowed"⟩
def badRequest : Response := ⟨400, "error", "Key and HWID are required."⟩
def notFound : Response := ⟨404, "error", "Key not found."⟩
def inactive : Response := ⟨403, "error", "Key is inactive or expired."⟩
def hwidMismatch : Response := ⟨403, "error", "HWID mismatch."⟩
def validAndBound : Response := ⟨200, "success", "HWID assigned and key validated."⟩
def valid : Response := ⟨200, "success", "Key validated."⟩
def internalError : Response := ⟨500, "error", "Internal server error."⟩

/-- The fixed set of structured responses. -/
def responses : List Response :=
  [methodNotAllowed, badRequest, notFound, inactive, hwidMismatch, validAndBound, valid,
    internalError]

/-! ## Store operations -/

/-- JavaScript truthiness of a string-or-null value: `null`, absent and the empty
string are falsy. -/
def truthy : Option String → Bool
  | none => false
  | some s => s ≠ ""

/-- First document at or after position `i` whose `key_id` equals `key`. -/
def queryFrom : Nat → Store → String → Option (Nat × KeyRecord)
  | _, [], _ => none
  | i, r :: rest, key => if r.key_id = key then some (i, r) else queryFrom (i + 1) rest key

/-- Lines 28-31: `collectionGroup('keys').where('key_id', '==', key).limit(1).get()`;
`none` is the empty snapshot, `some (idx, keyData)` is `docs[0]` with its reference. -/
def queryKeys (store : Store) (key : String) : Option (Nat × KeyRecord) :=
  queryFrom 0 store key

/-- Line 52: `keyDoc.ref.update({ hwid: hwid })` sets the one field of the one document. -/
def updateDoc : Store → Nat → String → Store
  | [], _, _ => []
  | r :: rest, 0, h => { r with hwid := some h } :: rest
  | r :: rest, i + 1, h => r :: updateDoc rest i h

/-! ## The handler -/

/-- Line 41, second disjunct: `keyData.expires_at && keyData.expires_at.toDate() < new Date()`. -/
def isExpired (now : Int) (keyData : KeyRecord) : Bool :=
  match keyData.expires_at with
  | none => false
  | some e => e < now

/-- What lines 33-57 do with the snapshot: answer at once, or write the HWID first. -/
inductive Decision
  | respond (r : Response)
  | bind (idx : Nat)
deriving DecidableEq, Repr

/-- Lines 33-57 up to the store write. -/
def evaluate (now : Int) (hwid : String) : Option (Nat × KeyRecord) → Decision
  | none => .respond notFound
  | some (idx, keyData) =>
    if keyData.status ≠ "active" ∨ isExpired now keyData = true then .respond inactive
    else if truthy keyData.hwid = true ∧ keyData.hwid ≠ some hwid then .respond hwidMismatch
    else if truthy keyData.hwid = false then .bind idx
    else .respond valid

/-- The default export of `validate-key.js` (lines 14-63). -/
def handler (faults : Faults) (now : Int) (req : Request) (store : Store) : Run :=
  if req.method ≠ "POST" then ⟨.responded methodNotAllowed, store, []⟩
  else
    match req.body with
    | none => ⟨.threw, store, []⟩
    | some body =>
      match body.key, body.hwid with
      | some key, some hwid =>
        if key = "" ∨ hwid = "" then ⟨.responded badRequest, store, []⟩
        else if faults.getFails = true then
          ⟨.responded internalError, store, [.query key]⟩
        else
          match evaluate now hwid (queryKeys store key) with
          | .respond r => ⟨.responded r, store, [.query key]⟩
          | .bind idx =>
            if faults.updateFails = true then
              ⟨.responded internalError, store, [.query key, .update idx hwid]⟩
            else
              ⟨.responded validAndBound, updateDoc store idx hwid,
                [.query key, .update idx hwid]⟩
      | _, _ => ⟨.responded badRequest, store, []⟩

/-- A well-formed validation call: `POST` with both fields present. -/
def post (key hwid : String) : Request := ⟨"POST", some ⟨some key, some hwid⟩⟩

/-- Several validation calls with the same request, one after another, at the given times. -/
def runCalls (faults : Faults) (req : Request) : List Int → Store → List Outcome × Store
  | [], s => ([], s)
  | t :: ts, s =>
    let run := handler faults t req s
    let rest := runCalls faults req ts run.store
    (run.outcome :: rest.1, rest.2)

/-! ## Concurrent calls

The handler is an `async` function: it yields at `await ...get()` (line 31) and at
`await keyDoc.ref.update(...)` (line 52). Between the two, other invocations may run.
A call is therefore two atomic steps: the query, and then lines 33-57 on the snapshot
it got (with the write, if any, applied to the store as it is at that moment). -/

/-- Where one in-flight call stands. -/
inductive Phase
  | idle
  | fetched (snap : Option (Nat × KeyRecord))
  | done (o : Outcome)
deriving DecidableEq, Repr

/-- The store and the phases of the calls, call `i` presenting `hwids[i]`. -/
structure World where
  store : Store
  phases : List Phase
deriving DecidableEq, Repr

/-- One atomic step of call `i`, a well-formed POST for `key` with HWID `hwids[i]` on a
healthy store: an idle call queries, a call holding a snapshot runs lines 33-57, a
finished call does nothing. -/
def stepCall (now : Int) (key : String) (hwids : List String) (w : World) (i : Nat) :
    World :=
  match hwids[i]?, w.phases[i]? with
  | some _, some .idle =>
    { w with phases := w.phases.set i (.fetched (queryKeys w.store key)) }
  | some hwid, some (.fetched snap) =>
    match evaluate now hwid snap with
    | .respond r => { w with phases := w.phases.set i (.done (.responded r)) }
    | .bind idx =>
      { store := updateDoc w.store idx hwid,
        phases := w.phases.set i (.done (.responded validAndBound)) }
  | _, _ => w

/-- All calls idle. -/
def initWorld (store : Store) (hwids : List String) : World :=
  ⟨store, List.replicate hwids.length .idle⟩

/-- Runs the steps in the order the schedule lists the calls. -/
def runSchedule (now : Int) (key : String) (hwids : List String) (schedule : List Nat)
    (w : World) : World :=
  schedule.foldl (stepCall now key hwids) w

/-- Every call gets both of its steps. -/
def Complete (hwids : List String) (schedule : List Nat) : Prop :=
  ∀ i, i < hwids.length → 2 ≤ schedule.count i

/-- The schedule in which the calls of `order` run one after another, none overlapping. -/
def serial (order : List Nat) : List Nat :=
  order.flatMap (fun i => [i, i])

/-- The world after the calls presenting `hwids` for `key` ran from all idle under
`schedule`. -/
def race (now : Int) (key : String) (hwids : List String) (schedule : List Nat)
    (store : Store) : World :=
  runSchedule now key hwids schedule (initWorld store hwids)

/-- How far a call has progressed: 0 idle, 1 holding a snapshot, 2 answered. -/
def Phase.rank : Phase → Nat
  | .idle => 0
  | .fetched _ => 1
  | .done _ => 2

/-- What a call racing for the unbound record `r` at position `idx` can be doing: not
started, holding the unbound snapshot, holding a snapshot bound to another call's HWID,
or answered ValidAndBound or HwidMismatch. -/
def PhaseOk (hwids : List String) (idx : Nat) (r : KeyRecord) (i : Nat) (p : Phase) : Prop :=
  p = .idle ∨ p = .fetched (some (idx, r))
    ∨ (∃ h, h ≠ "" ∧ hwids[i]? ≠ some h
        ∧ p = .fetched (some (idx, { r with hwid := some h })))
    ∨ p = .done (.responded validAndBound) ∨ p = .done (.responded hwidMismatch)

/-- Invariant of a race for the unbound record `r` at position `idx` of `store`: either
nothing was written and nobody has answered, or the store is the initial one with the
record bound to the HWID of a call that answered ValidAndBound. -/
def RaceInv (store : Store) (hwids : List String) (idx : Nat) (r : KeyRecord)
    (w : World) : Prop :=
  (∀ (i : Nat) (p : Phase), w.phases[i]? = some p → PhaseOk hwids idx r i p)
    ∧ ((w.store = store
          ∧ ∀ (i : Nat) (p : Phase), w.phases[i]? = some p →
              p = Phase.idle ∨ p = Phase.fetched (some (idx, r)))
      ∨ ∃ (j : Nat) (h : String), hwids[j]? = some h
          ∧ w.phases[j]? = some (Phase.done (.responded validAndBound))
          ∧ w.store = updateDoc store idx h)

/-! ## Examples from the specification -/

def exampleRecord : KeyRecord :=
  ⟨"ABC123", "owner@example.com", none, "active", 0, some 2592000000, 30⟩

/-- The same key after `DEVICE-1` was bound to it. -/
def boundRecord : KeyRecord :=
  ⟨"ABC123", "owner@example.com", some "DEVICE-1", "active", 0, some 2592000000, 30⟩

/-- The example key paused by its owner. -/
def pausedRecord : KeyRecord :=
  ⟨"ABC123", "owner@example.com", some "DEVICE-1", "paused", 0, some 2592000000, 30⟩

/-- A key whose `hwid` field holds the empty string. -/
def emptyHwidRecord : KeyRecord :=
  ⟨"ABC123", "owner@example.com", some "", "active", 0, some 2592000000, 30⟩

/-- An unbound key that expires at time 1000 exactly. -/
def boundaryRecord : KeyRecord :=
  ⟨"ABC123", "owner@example.com", none, "active", 0, some 1000, 30⟩

example : (handler noFaults 1000 (post "ABC123" "DEVICE-1") [exampleRecord]).outcome
    = .responded validAndBound := by decide

/-! ## Facts about the store operations -/

theorem queryFrom_some {i : Nat} {store : Store} {key : String} {j : Nat} {r : KeyRecord}
    (h : queryFrom i store key = some (j, r)) :
    i ≤ j ∧ store[j - i]? = some r ∧ r.key_id = key := by
  induction store generalizing i with
  | nil => simp [queryFrom] at h
  | cons a rest ih =>
    unfold queryFrom at h
    split at h
    · rename_i hk
      simp only [Option.some.injEq, Prod.mk.injEq] at h
      obtain ⟨rfl, rfl⟩ := h
      simp [hk]
    · obtain ⟨h1, h2, h3⟩ := ih h
      refine ⟨by omega, ?_, h3⟩
      have : j - i = (j - (i + 1)) + 1 := by omega
      rw [this]
      simpa using h2

theorem queryKeys_some {store : Store} {key : String} {j : Nat} {r : KeyRecord}
    (h : queryKeys store key = some (j, r)) : store[j]? = some r ∧ r.key_id = key := by
  have := queryFrom_some h
  simpa using this.2

theorem queryFrom_updateDoc {i : Nat} {store : Store} {key : String} {k : Nat} {r : KeyRecord}
    (h : queryFrom i store key = some (i + k, r)) (hw : String) :
    queryFrom i (updateDoc store k hw) key = some (i + k, { r with hwid := some hw }) := by
  induction store generalizing i k with
  | nil => simp [queryFrom] at h
  | cons a rest ih =>
    unfold queryFrom at h
    split at h
    · rename_i hk
      simp only [Option.some.injEq, Prod.mk.injEq] at h
      obtain ⟨h1, rfl⟩ := h
      have hk0 : k = 0 := by omega
      subst hk0
      simp [updateDoc, queryFrom, hk]
    · rename_i hk
      have hle := (queryFrom_some h).1
      obtain ⟨k, rfl⟩ : ∃ m, k = m + 1 := ⟨k - 1, by omega⟩
      have h2 : queryFrom (i + 1) rest key = some (i + 1 + k, r) := by
        rw [h]; congr 2; omega
      have := ih h2
      simp only [updateDoc, queryFrom, hk, if_false]
      rw [this]; congr 2; omega

theorem queryKeys_updateDoc {store : Store} {key : String} {k : Nat} {r : KeyRecord}
    (h : queryKeys store key = some (k, r)) (hw : String) :
    queryKeys (updateDoc store k hw) key = some (k, { r with hwid := some hw }) := by
  have h2 : queryFrom 0 store key = some (0 + k, r) := by simpa [queryKeys] using h
  simpa [queryKeys] using queryFrom_updateDoc h2 hw

theorem updateDoc_getElem?_ne (store : Store) (k j : Nat) (hw : String) (hjk : j ≠ k) :
    (updateDoc store k hw)[j]? = store[j]? := by
  induction store generalizing k j with
  | nil => simp [updateDoc]
  | cons a rest ih =>
    cases k with
    | zero =>
      cases j with
      | zero => exact absurd rfl hjk
      | succ j => simp [updateDoc]
    | succ k =>
      cases j with
      | zero => simp [updateDoc]
      | succ j => simpa [updateDoc] using ih k j (by omega)

theorem updateDoc_getElem?_eq (store : Store) (k : Nat) (hw : String) :
    (updateDoc store k hw)[k]? = store[k]?.map (fun r => { r with hwid := some hw }) := by
  induction store generalizing k with
  | nil => simp [updateDoc]
  | cons a rest ih =>
    cases k with
    | zero => simp [updateDoc]
    | succ k => simpa [updateDoc] using ih k

theorem updateDoc_length (store : Store) (k : Nat) (hw : String) :
    (updateDoc store k hw).length = store.length := by
  induction store generalizing k with
  | nil => rfl
  | cons a rest ih =>
    cases k with
    | zero => rfl
    | succ k => simp [updateDoc, ih k]

/-- What a well-formed call against a healthy store does, in terms of `evaluate`. -/
theorem handler_post (now : Int) (key hwid : String) (store : Store)
    (hkey : key ≠ "") (hhwid : hwid ≠ "") :
    handler noFaults now (post key hwid) store =
      match evaluate now hwid (queryKeys store key) with
      | .respond r => ⟨.responded r, store, [.query key]⟩
      | .bind idx => ⟨.responded validAndBound, updateDoc store idx hwid,
          [.query key, .update idx hwid]⟩ := by
  simp [handler, post, hkey, hhwid, noFaults]

/-- What `evaluate` answers for a live record, by the state of its `hwid`. -/
theorem evaluate_live (now : Int) (hwid : String) (idx : Nat) (r : KeyRecord)
    (hact : r.status = "active") (hexp : isExpired now r = false) :
    evaluate now hwid (some (idx, r)) =
      if truthy r.hwid = false then .bind idx
      else if r.hwid = some hwid then .respond valid
      else .respond hwidMismatch := by
  simp only [evaluate, hact, hexp]
  cases hh : truthy r.hwid <;> by_cases he : r.hwid = some hwid <;> simp [he]

/-! ## C1 - C5 -/

/-- C1 (first-use binding): when the record found for a key is active, has no
`expires_at` or one later than the current time, and has `hwid` null, a POST
validation call with that key and a non-empty HWID `H` answers 200
'HWID assigned and key validated.' and the record found for the key in the
resulting store is the same record with `hwid` equal to `H`. -/
theorem first_use_binding (store : Store) (now : Int) (key H : String) (idx : Nat)
    (r : KeyRecord) (hkey : key ≠ "") (hH : H ≠ "")
    (hfind : queryKeys store key = some (idx, r))
    (hact : r.status = "active")
    (hexp : ∀ e, r.expires_at = some e → now < e)
    (hnull : r.hwid = none) :
    (handler noFaults now (post key H) store).outcome
        = .responded ⟨200, "success", "HWID assigned and key validated."⟩
      ∧ queryKeys (handler noFaults now (post key H) store).store key
        = some (idx, { r with hwid := some H })
      ∧ (handler noFaults now (post key H) store).store[idx]?.bind KeyRecord.hwid
        = some H := by
  have hlive : isExpired now r = false := by
    unfold isExpired
    cases he : r.expires_at with
    | none => rfl
    | some e => have := hexp e he; simp; omega
  have hev : evaluate now H (some (idx, r)) = .bind idx := by
    rw [evaluate_live now H idx r hact hlive]; simp [hnull, truthy]
  rw [handler_post now key H store hkey hH, hfind, hev]
  refine ⟨rfl, queryKeys_updateDoc hfind H, ?_⟩
  simp [updateDoc_getElem?_eq, (queryKeys_some hfind).1]

/-- Instance of C1: the specification's example key, first call from `DEVICE-1`. -/
theorem first_use_binding_witness :
    (handler noFaults 1000 (post "ABC123" "DEVICE-1") [exampleRecord]).outcome
        = .responded ⟨200, "success", "HWID assigned and key validated."⟩
      ∧ queryKeys (handler noFaults 1000 (post "ABC123" "DEVICE-1") [exampleRecord]).store
          "ABC123" = some (0, { exampleRecord with hwid := some "DEVICE-1" })
      ∧ (handler noFaults 1000 (post "ABC123" "DEVICE-1")
          [exampleRecord]).store[0]?.bind KeyRecord.hwid = some "DEVICE-1" :=
  first_use_binding [exampleRecord] 1000 "ABC123" "DEVICE-1" 0 exampleRecord
    (by decide) (by decide) (by decide) (by decide)
    (by intro e he; simp [exampleRecord] at he; omega) (by decide)

/-- C2 (mismatch): when the record found for a key is active, unexpired and bound
to a (non-empty) HWID `H`, a validation call presenting a non-empty HWID different
from `H` answers 403 'HWID mismatch.', and the store, in particular the record's
`hwid`, is as before. -/
theorem mismatch_rejected (store : Store) (now : Int) (key H H2 : String) (idx : Nat)
    (r : KeyRecord) (hkey : key ≠ "") (hH2 : H2 ≠ "")
    (hfind : queryKeys store key = some (idx, r))
    (hact : r.status = "active") (hexp : isExpired now r = false)
    (hbound : r.hwid = some H) (hH : H ≠ "") (hdiff : H2 ≠ H) :
    (handler noFaults now (post key H2) store).outcome
        = .responded ⟨403, "error", "HWID mismatch."⟩
      ∧ (handler noFaults now (post key H2) store).store = store
      ∧ (handler noFaults now (post key H2) store).store[idx]?.bind KeyRecord.hwid
        = some H := by
  have hev : evaluate now H2 (some (idx, r)) = .respond hwidMismatch := by
    rw [evaluate_live now H2 idx r hact hexp]
    simp [hbound, truthy, hH, Ne.symm hdiff]
  rw [handler_post now key H2 store hkey hH2, hfind, hev]
  refine ⟨rfl, rfl, ?_⟩
  simp [(queryKeys_some hfind).1, hbound]

/-- Instance of C2: the example key bound to `DEVICE-1`, call from `DEVICE-2`. -/
theorem mismatch_rejected_witness :
    (handler noFaults 1000 (post "ABC123" "DEVICE-2") [boundRecord]).outcome
        = .responded ⟨403, "error", "HWID mismatch."⟩
      ∧ (handler noFaults 1000 (post "ABC123" "DEVICE-2") [boundRecord]).store = [boundRecord]
      ∧ (handler noFaults 1000 (post "ABC123" "DEVICE-2")
          [boundRecord]).store[0]?.bind KeyRecord.hwid = some "DEVICE-1" :=
  mismatch_rejected [boundRecord] 1000 "ABC123" "DEVICE-1" "DEVICE-2" 0 boundRecord
    (by decide) (by decide) (by decide) (by decide) (by decide) (by decide) (by decide)
    (by decide)

/-- C4 (liveness check dominates HWID state): when the record found for a key has a
status other than 'active', or an `expires_at` earlier than the current time, a
validation call with any non-empty HWID answers 403 'Key is inactive or expired.'
whatever the record's `hwid` is (so not HwidMismatch, Valid or ValidAndBound), and the
store is unchanged. -/
theorem liveness_dominates (store : Store) (now : Int) (key H : String) (idx : Nat)
    (r : KeyRecord) (hkey : key ≠ "") (hH : H ≠ "")
    (hfind : queryKeys store key = some (idx, r))
    (hdead : r.status ≠ "active" ∨ ∃ e, r.expires_at = some e ∧ e < now) :
    (handler noFaults now (post key H) store).outcome
        = .responded ⟨403, "error", "Key is inactive or expired."⟩
      ∧ (handler noFaults now (post key H) store).outcome ≠ .responded hwidMismatch
      ∧ (handler noFaults now (post key H) store).outcome ≠ .responded valid
      ∧ (handler noFaults now (post key H) store).outcome ≠ .responded validAndBound
      ∧ (handler noFaults now (post key H) store).store = store := by
  have hcond : r.status ≠ "active" ∨ isExpired now r = true := by
    rcases hdead with h | ⟨e, he, hlt⟩
    · exact Or.inl h
    · exact Or.inr (by simp [isExpired, he, hlt])
  have hev : evaluate now H (some (idx, r)) = .respond inactive := by
    simp only [evaluate, if_pos hcond]
  rw [handler_post now key H store hkey hH, hfind, hev]
  refine ⟨rfl, ?_, ?_, ?_, rfl⟩ <;> (show Outcome.responded inactive ≠ _) <;> decide

/-- Instance of C4: the example key paused, call from the device it is bound to. -/
theorem liveness_dominates_witness :
    (handler noFaults 1000 (post "ABC123" "DEVICE-1") [pausedRecord]).outcome
        = .responded ⟨403, "error", "Key is inactive or expired."⟩
      ∧ (handler noFaults 1000 (post "ABC123" "DEVICE-1") [pausedRecord]).outcome
        ≠ .responded hwidMismatch
      ∧ (handler noFaults 1000 (post "ABC123" "DEVICE-1") [pausedRecord]).outcome
        ≠ .responded valid
      ∧ (handler noFaults 1000 (post "ABC123" "DEVICE-1") [pausedRecord]).outcome
        ≠ .responded validAndBound
      ∧ (handler noFaults 1000 (post "ABC123" "DEVICE-1") [pausedRecord]).store
        = [pausedRecord] :=
  liveness_dominates [pausedRecord] 1000 "ABC123" "DEVICE-1" 0 pausedRecord
    (by decide) (by decide) (by decide) (Or.inl (by decide))

/-! ## Inversion of the handler -/

theorem evaluate_respond_ne_bound {now : Int} {hwid : String}
    {snap : Option (Nat × KeyRecord)} {resp : Response}
    (h : evaluate now hwid snap = .respond resp) : resp ≠ validAndBound := by
  unfold evaluate at h
  split at h
  · cases h; decide
  · split_ifs at h <;> cases h <;> decide

theorem evaluate_bind_inv {now : Int} {hwid : String}
    {snap : Option (Nat × KeyRecord)} {idx : Nat}
    (h : evaluate now hwid snap = .bind idx) :
    ∃ r, snap = some (idx, r) ∧ r.status = "active" ∧ isExpired now r = false
      ∧ truthy r.hwid = false := by
  unfold evaluate at h
  split at h
  · cases h
  · rename_i i r
    split_ifs at h with h1 h2 h3
    cases h
    refine ⟨r, rfl, ?_, ?_, h3⟩
    · by_contra hc; exact h1 (Or.inl hc)
    · cases he : isExpired now r
      · rfl
      · exact absurd (Or.inr he) h1

/-- The store changes in one way only: the update of line 52, on a record that the
query returned and whose `hwid` is falsy, in a run that answers ValidAndBound. -/
theorem handler_cases (faults : Faults) (now : Int) (req : Request) (store : Store) :
    ((handler faults now req store).outcome ≠ .responded validAndBound
        ∧ (handler faults now req store).store = store)
      ∨ ∃ key hwid idx r, req = post key hwid ∧ key ≠ "" ∧ hwid ≠ ""
          ∧ queryKeys store key = some (idx, r)
          ∧ r.status = "active" ∧ isExpired now r = false ∧ truthy r.hwid = false
          ∧ (handler faults now req store).outcome = .responded validAndBound
          ∧ (handler faults now req store).store = updateDoc store idx hwid := by
  obtain ⟨m, body⟩ := req
  unfold handler
  by_cases hm : m = "POST"
  swap
  · left; simp [hm]; decide
  subst hm
  simp only [ne_eq, not_true_eq_false, if_false]
  cases body with
  | none => left; simp
  | some body =>
    obtain ⟨k, hw⟩ := body
    cases k with
    | none => left; simp; decide
    | some key =>
      cases hw with
      | none => left; simp; decide
      | some hwid =>
        simp only
        by_cases hbad : key = "" ∨ hwid = ""
        · left; simp only [if_pos hbad]; exact ⟨by decide, trivial⟩
        simp only [if_neg hbad]
        by_cases hg : faults.getFails = true
        · left; simp only [if_pos hg]; exact ⟨by decide, trivial⟩
        simp only [if_neg hg]
        cases hev : evaluate now hwid (queryKeys store key) with
        | respond resp =>
          left
          have := evaluate_respond_ne_bound hev
          simp only
          exact ⟨fun h => this (by injection h), trivial⟩
        | bind idx =>
          simp only
          by_cases hu : faults.updateFails = true
          · left; simp only [if_pos hu]; exact ⟨by decide, trivial⟩
          simp only [if_neg hu]
          right
          obtain ⟨r, hsnap, hact, hexp, hfalsy⟩ := evaluate_bind_inv hev
          push_neg at hbad
          refine ⟨key, hwid, idx, r, rfl, hbad.1, hbad.2, hsnap, hact, hexp, hfalsy, ?_, ?_⟩ <;>
            first | rfl | trivial

theorem queryFrom_none {i : Nat} {store : Store} {key : String}
    (h : ∀ r ∈ store, r.key_id ≠ key) : queryFrom i store key = none := by
  induction store generalizing i with
  | nil => rfl
  | cons a rest ih =>
    have ha : a.key_id ≠ key := h a (List.mem_cons_self a rest)
    simp only [queryFrom, if_neg ha]
    exact ih (fun r hr => h r (List.mem_cons_of_mem a hr))

/-- Re-validation of a bound, live key with its own HWID: Valid, nothing written. -/
theorem handler_revalidate (store : Store) (t : Int) (key H : String) (idx : Nat)
    (r : KeyRecord) (hkey : key ≠ "") (hH : H ≠ "")
    (hfind : queryKeys store key = some (idx, r))
    (hact : r.status = "active") (hexp : isExpired t r = false)
    (hbound : r.hwid = some H) :
    handler noFaults t (post key H) store = ⟨.responded valid, store, [.query key]⟩ := by
  have hev : evaluate t H (some (idx, r)) = .respond valid := by
    rw [evaluate_live t H idx r hact hexp]
    simp [hbound, truthy, hH]
  rw [handler_post t key H store hkey hH, hfind, hev]

/-! ## C3, C5, C7 - C10 -/

/-- C3 (idempotent re-validation): from the store left by a successful first bind of
a key to `H`, any number of further validation calls with the same key and `H`, at
times at which the key is active and unexpired, each answer 200 'Key validated.' and
leave the store, hence the record's `hwid`, unchanged. -/
theorem revalidation_idempotent (s0 : Store) (now0 : Int) (key H : String)
    (times : List Int)
    (hbind : (handler noFaults now0 (post key H) s0).outcome = .responded validAndBound)
    (hlive : ∀ t ∈ times, ∀ i r,
      queryKeys (handler noFaults now0 (post key H) s0).store key = some (i, r) →
        r.status = "active" ∧ isExpired t r = false) :
    runCalls noFaults (post key H) times (handler noFaults now0 (post key H) s0).store
      = (List.replicate times.length (.responded ⟨200, "success", "Key validated."⟩),
          (handler noFaults now0 (post key H) s0).store) := by
  rcases handler_cases noFaults now0 (post key H) s0 with ⟨hne, _⟩ | h
  · exact absurd hbind hne
  obtain ⟨key2, hwid2, idx, r, hreq, hkey, hH, hfind, -, -, -, -, hstore⟩ := h
  simp only [post, Request.mk.injEq, Option.some.injEq, Body.mk.injEq, true_and] at hreq
  obtain ⟨rfl, rfl⟩ := hreq
  have hfind1 := queryKeys_updateDoc hfind H
  rw [← hstore] at hfind1
  generalize (handler noFaults now0 (post key H) s0).store = s1 at hlive hfind1 ⊢
  induction times with
  | nil => rfl
  | cons t ts ih =>
    have hl := hlive t (List.mem_cons_self t ts) idx _ hfind1
    have hrun := handler_revalidate s1 t key H idx _ hkey hH hfind1 hl.1 hl.2 rfl
    have ih2 := ih (fun t2 ht2 => hlive t2 (List.mem_cons_of_mem t ht2))
    simp only [runCalls, hrun, ih2, List.length_cons, List.replicate_succ]
    rfl

/-- Instance of C3: three further calls from `DEVICE-1` after it bound the example key. -/
theorem revalidation_idempotent_witness :
    runCalls noFaults (post "ABC123" "DEVICE-1") [2000, 3000, 4000]
        (handler noFaults 1000 (post "ABC123" "DEVICE-1") [exampleRecord]).store
      = (List.replicate [(2000 : Int), 3000, 4000].length
            (.responded ⟨200, "success", "Key validated."⟩),
          (handler noFaults 1000 (post "ABC123" "DEVICE-1") [exampleRecord]).store) :=
  revalidation_idempotent [exampleRecord] 1000 "ABC123" "DEVICE-1" [2000, 3000, 4000]
    (by decide)
    (by
      intro t ht i r hq
      have hs : queryKeys (handler noFaults 1000 (post "ABC123" "DEVICE-1")
          [exampleRecord]).store "ABC123" = some (0, boundRecord) := by decide
      rw [hs] at hq
      simp only [Option.some.injEq, Prod.mk.injEq] at hq
      obtain ⟨-, rfl⟩ := hq
      simp only [List.mem_cons, List.mem_singleton, List.not_mem_nil, or_false] at ht
      rcases ht with rfl | rfl | rfl <;> decide)

/-- C5, as stated, fails: a record whose `hwid` is the empty string (non-null) is taken
as unassigned by line 51, and a validation call overwrites it. -/
theorem nonnull_hwid_overwritten :
    [emptyHwidRecord][0]?.bind KeyRecord.hwid = some ""
      ∧ [emptyHwidRecord][0]?.bind KeyRecord.hwid ≠ none
      ∧ (handler noFaults 1000 (post "ABC123" "DEVICE-1") [emptyHwidRecord]).outcome
        = .responded validAndBound
      ∧ (handler noFaults 1000 (post "ABC123" "DEVICE-1")
          [emptyHwidRecord]).store[0]?.bind KeyRecord.hwid = some "DEVICE-1" := by
  decide

/-- C5, amended (HWID immutability on the validation path): for every store, request,
current time and store health, a record whose `hwid` is a non-empty string before the
call is the same record, with the same `hwid`, after it. -/
theorem hwid_immutable (faults : Faults) (now : Int) (req : Request) (store : Store)
    (i : Nat) (r : KeyRecord) (h : String)
    (hi : store[i]? = some r) (hh : r.hwid = some h) (hne : h ≠ "") :
    (handler faults now req store).store[i]? = some r
      ∧ (handler faults now req store).store[i]?.bind KeyRecord.hwid = some h := by
  have key : (handler faults now req store).store[i]? = some r := by
    rcases handler_cases faults now req store with ⟨-, hs⟩ | hb
    · rw [hs]; exact hi
    obtain ⟨k, hw, idx, r2, -, -, -, hfind, -, -, hfalsy, -, hstore⟩ := hb
    have hne2 : i ≠ idx := by
      rintro rfl
      have := (queryKeys_some hfind).1
      rw [hi] at this
      cases this
      simp [hh, truthy, hne] at hfalsy
    rw [hstore, updateDoc_getElem?_ne store idx i hw hne2]
    exact hi
  exact ⟨key, by simp [key, hh]⟩

/-- Instance of C5 amended: the example key bound to `DEVICE-1`, call from `DEVICE-2`. -/
theorem hwid_immutable_witness :
    (handler noFaults 1000 (post "ABC123" "DEVICE-2") [boundRecord]).store[0]?
        = some boundRecord
      ∧ (handler noFaults 1000 (post "ABC123" "DEVICE-2")
          [boundRecord]).store[0]?.bind KeyRecord.hwid = some "DEVICE-1" :=
  hwid_immutable noFaults 1000 (post "ABC123" "DEVICE-2") [boundRecord] 0 boundRecord
    "DEVICE-1" (by decide) (by decide) (by decide)

/-- C7, as stated, fails: at `expires_at` equal to the current time the comparison
`expires_at.toDate() < new Date()` of line 41 is false, so an active unbound key is
not answered Inactive: it is validated and bound. -/
theorem expiry_boundary_not_expired :
    boundaryRecord.expires_at = some 1000
      ∧ (handler noFaults 1000 (post "ABC123" "DEVICE-1") [boundaryRecord]).outcome
        ≠ .responded inactive
      ∧ (handler noFaults 1000 (post "ABC123" "DEVICE-1") [boundaryRecord]).outcome
        = .responded validAndBound
      ∧ (handler noFaults 1000 (post "ABC123" "DEVICE-1")
          [boundaryRecord]).store[0]?.bind KeyRecord.hwid = some "DEVICE-1" := by
  decide

/-- C7, amended (expiry boundary): an active key whose `expires_at` is exactly the
current time is not treated as expired: the call is not answered Inactive and goes on
to the HWID checks, answering ValidAndBound when the `hwid` is unset, Valid when it is
the presented HWID and HwidMismatch otherwise. -/
theorem expiry_boundary (store : Store) (now : Int) (key H : String) (idx : Nat)
    (r : KeyRecord) (hkey : key ≠ "") (hH : H ≠ "")
    (hfind : queryKeys store key = some (idx, r))
    (hact : r.status = "active") (hexp : r.expires_at = some now) :
    isExpired now r = false
      ∧ (handler noFaults now (post key H) store).outcome
        ≠ .responded ⟨403, "error", "Key is inactive or expired."⟩
      ∧ (handler noFaults now (post key H) store).outcome =
          if truthy r.hwid = false then .responded validAndBound
          else if r.hwid = some H then .responded valid
          else .responded hwidMismatch := by
  have hlive : isExpired now r = false := by simp [isExpired, hexp]
  have hev := evaluate_live now H idx r hact hlive
  rw [handler_post now key H store hkey hH, hfind, hev]
  refine ⟨hlive, ?_, ?_⟩ <;> split_ifs
  · show Outcome.responded validAndBound ≠ _
    decide
  · show Outcome.responded valid ≠ _
    decide
  · show Outcome.responded hwidMismatch ≠ _
    decide
  all_goals rfl

/-- Instance of C7 amended: an unbound key validated at the very time it expires. -/
theorem expiry_boundary_witness :
    isExpired 1000 boundaryRecord = false
      ∧ (handler noFaults 1000 (post "ABC123" "DEVICE-1") [boundaryRecord]).outcome
        ≠ .responded ⟨403, "error", "Key is inactive or expired."⟩
      ∧ (handler noFaults 1000 (post "ABC123" "DEVICE-1") [boundaryRecord]).outcome =
          if truthy boundaryRecord.hwid = false then .responded validAndBound
          else if boundaryRecord.hwid = some "DEVICE-1" then .responded valid
          else .responded hwidMismatch :=
  expiry_boundary [boundaryRecord] 1000 "ABC123" "DEVICE-1" 0 boundaryRecord
    (by decide) (by decide) (by decide) (by decide) (by decide)

/-- C8 (side effects and frame): for every request, store, current time and store
health, either the response is not ValidAndBound and the store after the call equals
the store before it, or the response is ValidAndBound and the store differs only in
the `hwid` field of the one record the query matched, which becomes the presented
HWID: that record keeps its other fields and every other position of the store holds
what it held. -/
theorem frame (faults : Faults) (now : Int) (req : Request) (store : Store) :
    ((handler faults now req store).outcome ≠ .responded validAndBound
        ∧ (handler faults now req store).store = store)
      ∨ ((handler faults now req store).outcome = .responded validAndBound
        ∧ ∃ key hwid idx r, req = post key hwid
          ∧ queryKeys store key = some (idx, r)
          ∧ store[idx]? = some r
          ∧ (handler faults now req store).store[idx]? = some { r with hwid := some hwid }
          ∧ (handler faults now req store).store.length = store.length
          ∧ ∀ j, j ≠ idx → (handler faults now req store).store[j]? = store[j]?) := by
  rcases handler_cases faults now req store with h | h
  · exact Or.inl h
  obtain ⟨key, hwid, idx, r, hreq, -, -, hfind, -, -, -, hout, hstore⟩ := h
  refine Or.inr ⟨hout, key, hwid, idx, r, hreq, hfind, (queryKeys_some hfind).1, ?_, ?_, ?_⟩
  · rw [hstore, updateDoc_getElem?_eq, (queryKeys_some hfind).1]; rfl
  · rw [hstore]; exact updateDoc_length store idx hwid
  · intro j hj
    rw [hstore]; exact updateDoc_getElem?_ne store idx j hwid hj

/-- C9 (boundary validation precedes the engine): a request whose method is not POST
is answered 405 'Method Not Allowed' whatever its body, and a POST request whose body
lacks `key` or `hwid`, or has either empty, is answered 400
'Key and HWID are required.'; in both cases no store operation is issued and the store
is unchanged, whatever the store holds. -/
theorem boundary_precedes_engine (faults : Faults) (now : Int) (req : Request)
    (store : Store) :
    (req.method ≠ "POST" → handler faults now req store
        = ⟨.responded ⟨405, "error", "Method Not Allowed"⟩, store, []⟩)
      ∧ (req.method = "POST" → ∀ body, req.body = some body →
          truthy body.key = false ∨ truthy body.hwid = false →
          handler faults now req store
            = ⟨.responded ⟨400, "error", "Key and HWID are required."⟩, store, []⟩) := by
  obtain ⟨m, b⟩ := req
  refine ⟨fun hm => ?_, fun hm body hb hmiss => ?_⟩
  · simp only at hm
    simp only [handler, ne_eq, hm, not_false_eq_true, if_true]
    rfl
  · simp only at hm hb
    subst hm hb
    obtain ⟨k, hw⟩ := body
    cases k with
    | none => simp [handler]; rfl
    | some key =>
      cases hw with
      | none => simp [handler]; rfl
      | some hwid =>
        have hbad : key = "" ∨ hwid = "" := by
          simpa [truthy] using hmiss
        simp only [handler, ne_eq, not_true_eq_false, if_false, if_pos hbad]
        rfl

/-- Instance of C9: a GET request, and a POST without `hwid`, for a key that exists. -/
theorem boundary_precedes_engine_witness :
    handler noFaults 1000 ⟨"GET", some ⟨some "ABC123", some "DEVICE-1"⟩⟩ [exampleRecord]
        = ⟨.responded ⟨405, "error", "Method Not Allowed"⟩, [exampleRecord], []⟩
      ∧ handler noFaults 1000 ⟨"POST", some ⟨some "ABC123", none⟩⟩ [exampleRecord]
        = ⟨.responded ⟨400, "error", "Key and HWID are required."⟩, [exampleRecord], []⟩ :=
  ⟨(boundary_precedes_engine noFaults 1000 ⟨"GET", some ⟨some "ABC123", some "DEVICE-1"⟩⟩
      [exampleRecord]).1 (by decide),
    (boundary_precedes_engine noFaults 1000 ⟨"POST", some ⟨some "ABC123", none⟩⟩
      [exampleRecord]).2 rfl ⟨some "ABC123", none⟩ rfl (Or.inr rfl)⟩

/-- C10 (unknown key): when no record of the store has the presented (non-empty) key as
its `key_id`, a POST validation call with a non-empty HWID answers 404 'Key not found.'
at every current time, after the one query, and the store is unchanged: no record is
created or bound. -/
theorem unknown_key (store : Store) (now : Int) (key H : String)
    (hkey : key ≠ "") (hH : H ≠ "") (hnone : ∀ r ∈ store, r.key_id ≠ key) :
    handler noFaults now (post key H) store
      = ⟨.responded ⟨404, "error", "Key not found."⟩, store, [.query key]⟩ := by
  have hq : queryKeys store key = none := queryFrom_none hnone
  rw [handler_post now key H store hkey hH, hq]
  rfl

/-- Instance of C10: the specification's example `validate("UNKNOWN", "X")`. -/
theorem unknown_key_witness :
    handler noFaults 1000 (post "UNKNOWN" "X") [exampleRecord]
      = ⟨.responded ⟨404, "error", "Key not found."⟩, [exampleRecord],
          [.query "UNKNOWN"]⟩ :=
  unknown_key [exampleRecord] 1000 "UNKNOWN" "X" (by decide) (by decide) (by decide)

/-! ## Concurrent calls: the steps -/

theorem updateDoc_updateDoc (store : Store) (k : Nat) (a b : String) :
    updateDoc (updateDoc store k a) k b = updateDoc store k b := by
  induction store generalizing k with
  | nil => rfl
  | cons x rest ih =>
    cases k with
    | zero => rfl
    | succ k => simp [updateDoc, ih k]

theorem stepCall_idle {now : Int} {key : String} {hwids : List String} {w : World} {i : Nat}
    {h : String} (hh : hwids[i]? = some h) (hp : w.phases[i]? = some .idle) :
    stepCall now key hwids w i
      = ⟨w.store, w.phases.set i (.fetched (queryKeys w.store key))⟩ := by
  simp [stepCall, hh, hp]

theorem stepCall_fetched {now : Int} {key : String} {hwids : List String} {w : World}
    {i : Nat} {h : String} {snap : Option (Nat × KeyRecord)}
    (hh : hwids[i]? = some h) (hp : w.phases[i]? = some (.fetched snap)) :
    stepCall now key hwids w i =
      match evaluate now h snap with
      | .respond resp => ⟨w.store, w.phases.set i (.done (.responded resp))⟩
      | .bind idx => ⟨updateDoc w.store idx h,
          w.phases.set i (.done (.responded validAndBound))⟩ := by
  simp [stepCall, hh, hp]

theorem stepCall_done {now : Int} {key : String} {hwids : List String} {w : World}
    {i : Nat} {o : Outcome} (hp : w.phases[i]? = some (.done o)) :
    stepCall now key hwids w i = w := by
  unfold stepCall
  rw [hp]
  cases hwids[i]? <;> rfl

theorem stepCall_phases_length (now : Int) (key : String) (hwids : List String) (w : World)
    (i : Nat) : (stepCall now key hwids w i).phases.length = w.phases.length := by
  unfold stepCall
  split
  · simp
  · split <;> simp
  · rfl

theorem stepCall_phases_ne (now : Int) (key : String) (hwids : List String) (w : World)
    {i j : Nat} (hij : i ≠ j) :
    (stepCall now key hwids w i).phases[j]? = w.phases[j]? := by
  unfold stepCall
  split
  · simp [List.getElem?_set_ne hij]
  · split <;> simp [List.getElem?_set_ne hij]
  · rfl

/-- The two steps of a call run back to back are one run of the handler. -/
theorem stepCall_twice (now : Int) (key : String) (hwids : List String) (w : World)
    (i : Nat) (h : String) (hkey : key ≠ "") (hne : h ≠ "")
    (hh : hwids[i]? = some h) (hp : w.phases[i]? = some .idle) :
    stepCall now key hwids (stepCall now key hwids w i) i
      = ⟨(handler noFaults now (post key h) w.store).store,
          w.phases.set i (.done (handler noFaults now (post key h) w.store).outcome)⟩ := by
  have hlt : i < w.phases.length := by
    by_contra hc
    rw [List.getElem?_eq_none (by omega)] at hp
    cases hp
  rw [stepCall_idle hh hp]
  have hp2 : (World.mk w.store (w.phases.set i (.fetched (queryKeys w.store key)))).phases[i]?
      = some (.fetched (queryKeys w.store key)) := List.getElem?_set_self hlt
  rw [stepCall_fetched hh hp2]
  rw [handler_post now key h w.store hkey hne]
  cases evaluate now h (queryKeys w.store key) <;> simp

/-! ## Concurrent calls: the invariant -/

theorem forall_set_phase {P : Nat → Phase → Prop} (l : List Phase) (i : Nat) (q : Phase)
    (hall : ∀ (k : Nat) (p : Phase), l[k]? = some p → P k p) (hq : P i q) :
    ∀ (k : Nat) (p : Phase), (l.set i q)[k]? = some p → P k p := by
  intro k p hk
  by_cases hik : i = k
  · subst hik
    rw [List.getElem?_set] at hk
    simp only [if_true] at hk
    split at hk
    · cases hk; exact hq
    · cases hk
  · rw [List.getElem?_set_ne hik] at hk
    exact hall k p hk

theorem evaluate_unbound (now : Int) (h : String) (idx : Nat) (r : KeyRecord)
    (hact : r.status = "active") (hexp : isExpired now r = false)
    (hunb : truthy r.hwid = false) :
    evaluate now h (some (idx, r)) = .bind idx := by
  rw [evaluate_live now h idx r hact hexp]
  simp [hunb]

theorem evaluate_bound_other (now : Int) (h h2 : String) (idx : Nat) (r : KeyRecord)
    (hact : r.status = "active") (hexp : isExpired now r = false)
    (hh2 : h2 ≠ "") (hdiff : h2 ≠ h) :
    evaluate now h (some (idx, { r with hwid := some h2 })) = .respond hwidMismatch := by
  rw [evaluate_live now h idx { r with hwid := some h2 } hact
    (by simpa [isExpired] using hexp)]
  simp [truthy, hh2, hdiff]

theorem raceInv_init (store : Store) (hwids : List String) (idx : Nat) (r : KeyRecord) :
    RaceInv store hwids idx r (initWorld store hwids) := by
  have hidle : ∀ (i : Nat) (p : Phase),
      (initWorld store hwids).phases[i]? = some p → p = Phase.idle := by
    intro i p hp
    simp only [initWorld, List.getElem?_replicate] at hp
    split at hp
    · cases hp; rfl
    · cases hp
  exact ⟨fun i p hp => Or.inl (hidle i p hp), Or.inl ⟨rfl, fun i p hp => Or.inl (hidle i p hp)⟩⟩

theorem raceInv_step {store : Store} {now : Int} {key : String} {hwids : List String}
    {idx : Nat} {r : KeyRecord}
    (hfind : queryKeys store key = some (idx, r))
    (hact : r.status = "active") (hexp : isExpired now r = false)
    (hunb : truthy r.hwid = false)
    (hne : ∀ h ∈ hwids, h ≠ "") (hnd : hwids.Nodup)
    (w : World) (i : Nat) (hinv : RaceInv store hwids idx r w) :
    RaceInv store hwids idx r (stepCall now key hwids w i) := by
  obtain ⟨hok, hst⟩ := hinv
  cases hh : hwids[i]? with
  | none =>
    have hskip : stepCall now key hwids w i = w := by simp [stepCall, hh]
    rw [hskip]; exact ⟨hok, hst⟩
  | some h =>
    cases hp : w.phases[i]? with
    | none =>
      have hskip : stepCall now key hwids w i = w := by simp [stepCall, hh, hp]
      rw [hskip]; exact ⟨hok, hst⟩
    | some p =>
      have hilt : i < hwids.length := by
        by_contra hc
        rw [List.getElem?_eq_none (by omega)] at hh
        cases hh
      cases p with
      | done o => rw [stepCall_done hp]; exact ⟨hok, hst⟩
      | idle =>
        rw [stepCall_idle hh hp]
        rcases hst with ⟨hs, hall⟩ | ⟨j, hj, hhj, hpj, hs⟩
        · have hq : queryKeys w.store key = some (idx, r) := by rw [hs]; exact hfind
          rw [hq]
          refine ⟨?_, Or.inl ⟨hs, ?_⟩⟩
          · exact forall_set_phase w.phases i _ hok (Or.inr (Or.inl rfl))
          · exact forall_set_phase w.phases i _ hall (Or.inr rfl)
        · have hq : queryKeys w.store key = some (idx, { r with hwid := some hj }) := by
            rw [hs]; exact queryKeys_updateDoc hfind hj
          have hij : i ≠ j := by
            rintro rfl
            rw [hp] at hpj
            cases hpj
          have hdiff : hwids[i]? ≠ some hj := by
            intro hc
            exact hij (List.getElem?_inj hilt hnd (hc.trans hhj.symm))
          rw [hq]
          refine ⟨?_, Or.inr ⟨j, hj, hhj, ?_, hs⟩⟩
          · exact forall_set_phase w.phases i _ hok
              (Or.inr (Or.inr (Or.inl ⟨hj, hne hj (List.getElem?_mem hhj), hdiff, rfl⟩)))
          · show (w.phases.set i _)[j]? = _
            rw [List.getElem?_set_ne hij]; exact hpj
      | fetched snap =>
        rw [stepCall_fetched hh hp]
        have hbindcase : snap = some (idx, r) →
            RaceInv store hwids idx r
              (match evaluate now h snap with
                | .respond resp => ⟨w.store, w.phases.set i (.done (.responded resp))⟩
                | .bind idx => ⟨updateDoc w.store idx h,
                    w.phases.set i (.done (.responded validAndBound))⟩) := by
          intro hsnap
          have hilt2 : i < w.phases.length := by
            by_contra hc
            rw [List.getElem?_eq_none (by omega)] at hp
            cases hp
          rw [hsnap, evaluate_unbound now h idx r hact hexp hunb]
          refine ⟨?_, Or.inr ⟨i, h, hh, ?_, ?_⟩⟩
          · exact forall_set_phase w.phases i _ hok (Or.inr (Or.inr (Or.inr (Or.inl rfl))))
          · show (w.phases.set i _)[i]? = _
            exact List.getElem?_set_self hilt2
          · show updateDoc w.store idx h = _
            rcases hst with ⟨hs, -⟩ | ⟨j, hj, -, -, hs⟩
            · rw [hs]
            · rw [hs, updateDoc_updateDoc]
        rcases hst with ⟨hs, hall⟩ | ⟨j, hj, hhj, hpj, hs⟩
        · rcases hall i _ hp with hc | hc
          · cases hc
          · exact hbindcase (by injection hc)
        · rcases hok i _ hp with hc | hc | ⟨h2, hh2, hdiff, hc⟩ | hc | hc
          · cases hc
          · exact hbindcase (by injection hc)
          · have hsnap : snap = some (idx, { r with hwid := some h2 }) := by injection hc
            have hd : h2 ≠ h := fun e => hdiff (by rw [hh, e])
            have hij : i ≠ j := by
              rintro rfl
              rw [hp] at hpj
              cases hpj
            rw [hsnap, evaluate_bound_other now h h2 idx r hact hexp hh2 hd]
            refine ⟨?_, Or.inr ⟨j, hj, hhj, ?_, hs⟩⟩
            · exact forall_set_phase w.phases i _ hok
                (Or.inr (Or.inr (Or.inr (Or.inr rfl))))
            · show (w.phases.set i _)[j]? = _
              rw [List.getElem?_set_ne hij]; exact hpj
          · cases hc
          · cases hc

theorem raceInv_run {store : Store} {now : Int} {key : String} {hwids : List String}
    {idx : Nat} {r : KeyRecord}
    (hfind : queryKeys store key = some (idx, r))
    (hact : r.status = "active") (hexp : isExpired now r = false)
    (hunb : truthy r.hwid = false)
    (hne : ∀ h ∈ hwids, h ≠ "") (hnd : hwids.Nodup)
    (schedule : List Nat) (w : World) (hinv : RaceInv store hwids idx r w) :
    RaceInv store hwids idx r (runSchedule now key hwids schedule w) := by
  induction schedule generalizing w with
  | nil => exact hinv
  | cons i rest ih =>
    exact ih _ (raceInv_step hfind hact hexp hunb hne hnd w i hinv)

/-! ## Concurrent calls: every call answers -/

theorem stepCall_rank_self (now : Int) (key : String) (hwids : List String) (w : World)
    (i : Nat) (h : String) (p : Phase)
    (hh : hwids[i]? = some h) (hp : w.phases[i]? = some p) :
    ∃ q, (stepCall now key hwids w i).phases[i]? = some q ∧ q.rank = min 2 (p.rank + 1) := by
  have hlt : i < w.phases.length := by
    by_contra hc
    rw [List.getElem?_eq_none (by omega)] at hp
    cases hp
  cases p with
  | idle =>
    rw [stepCall_idle hh hp]
    exact ⟨_, List.getElem?_set_self hlt, rfl⟩
  | fetched snap =>
    rw [stepCall_fetched hh hp]
    cases evaluate now h snap with
    | respond resp => exact ⟨_, List.getElem?_set_self hlt, rfl⟩
    | bind k => exact ⟨_, List.getElem?_set_self hlt, rfl⟩
  | done o =>
    rw [stepCall_done hp]
    exact ⟨_, hp, rfl⟩

theorem runSchedule_rank (now : Int) (key : String) (hwids : List String)
    (schedule : List Nat) (w : World) (i : Nat) (h : String) (p : Phase)
    (hh : hwids[i]? = some h) (hp : w.phases[i]? = some p) :
    ∃ q, (runSchedule now key hwids schedule w).phases[i]? = some q
      ∧ q.rank = min 2 (p.rank + schedule.count i) := by
  induction schedule generalizing w p with
  | nil => exact ⟨p, hp, by cases p <;> rfl⟩
  | cons j rest ih =>
    by_cases hji : j = i
    · subst hji
      obtain ⟨q1, hq1, hr1⟩ := stepCall_rank_self now key hwids w j h p hh hp
      obtain ⟨q, hq, hr⟩ := ih (stepCall now key hwids w j) q1 hq1
      refine ⟨q, hq, ?_⟩
      rw [hr, hr1, List.count_cons_self]
      omega
    · have hq1 : (stepCall now key hwids w j).phases[i]? = some p := by
        rw [stepCall_phases_ne now key hwids w hji]; exact hp
      obtain ⟨q, hq, hr⟩ := ih (stepCall now key hwids w j) p hq1
      refine ⟨q, hq, ?_⟩
      rw [hr, List.count_cons_of_ne (Ne.symm hji)]

/-- After a complete schedule every call has answered. -/
theorem runSchedule_complete_done (now : Int) (key : String) (hwids : List String)
    (schedule : List Nat) (store : Store) (hc : Complete hwids schedule)
    (i : Nat) (hi : i < hwids.length) :
    ∃ o, (runSchedule now key hwids schedule (initWorld store hwids)).phases[i]?
      = some (.done o) := by
  have hh : hwids[i]? = some hwids[i] := List.getElem?_eq_getElem hi
  have hp : (initWorld store hwids).phases[i]? = some .idle := by
    simp [initWorld, List.getElem?_replicate, hi]
  obtain ⟨q, hq, hr⟩ := runSchedule_rank now key hwids schedule _ i _ _ hh hp
  have h2 := hc i hi
  cases q with
  | idle => simp [Phase.rank] at hr; omega
  | fetched snap => simp [Phase.rank] at hr; omega
  | done o => exact ⟨o, hq⟩

/-! ## Calls that do not overlap -/

theorem runSchedule_serial_cons (now : Int) (key : String) (hwids : List String)
    (i : Nat) (rest : List Nat) (w : World) :
    runSchedule now key hwids (serial (i :: rest)) w
      = runSchedule now key hwids (serial rest)
          (stepCall now key hwids (stepCall now key hwids w i) i) := by
  simp [runSchedule, serial]

theorem handler_bound_other (store : Store) (now : Int) (key h hf : String) (idx : Nat)
    (r : KeyRecord) (hkey : key ≠ "") (hh : h ≠ "") (hhf : hf ≠ "") (hdiff : hf ≠ h)
    (hfind : queryKeys store key = some (idx, r))
    (hact : r.status = "active") (hexp : isExpired now r = false) :
    handler noFaults now (post key h) (updateDoc store idx hf)
      = ⟨.responded hwidMismatch, updateDoc store idx hf, [.query key]⟩ := by
  rw [handler_post now key h _ hkey hh, queryKeys_updateDoc hfind hf,
    evaluate_bound_other now h hf idx r hact hexp hhf hdiff]

theorem runSchedule_serial_rest {store : Store} {now : Int} {key : String}
    {hwids : List String} {idx : Nat} {r : KeyRecord} (hf : String)
    (hkey : key ≠ "") (hhf : hf ≠ "")
    (hfind : queryKeys store key = some (idx, r))
    (hact : r.status = "active") (hexp : isExpired now r = false)
    (rest : List Nat) (w : World)
    (hs : w.store = updateDoc store idx hf) (hnd : rest.Nodup)
    (hrest : ∀ j ∈ rest, w.phases[j]? = some Phase.idle
      ∧ ∃ h, hwids[j]? = some h ∧ h ≠ "" ∧ hf ≠ h) :
    (runSchedule now key hwids (serial rest) w).store = updateDoc store idx hf
      ∧ (∀ j ∈ rest, (runSchedule now key hwids (serial rest) w).phases[j]?
          = some (Phase.done (.responded hwidMismatch)))
      ∧ ∀ k, k ∉ rest → (runSchedule now key hwids (serial rest) w).phases[k]?
          = w.phases[k]? := by
  induction rest generalizing w with
  | nil => exact ⟨hs, fun j hj => absurd hj (List.not_mem_nil j), fun k _ => rfl⟩
  | cons j rest ih =>
    obtain ⟨hpj, h, hhj, hh, hdiff⟩ := hrest j (List.mem_cons_self j rest)
    have hjlt : j < w.phases.length := by
      by_contra hc
      rw [List.getElem?_eq_none (by omega)] at hpj
      cases hpj
    have hjrest : j ∉ rest := (List.nodup_cons.mp hnd).1
    rw [runSchedule_serial_cons, stepCall_twice now key hwids w j h hkey hh hhj hpj, hs,
      handler_bound_other store now key h hf idx r hkey hh hhf hdiff hfind hact hexp]
    have hrest2 : ∀ j2 ∈ rest,
        (w.phases.set j (Phase.done (.responded hwidMismatch)))[j2]? = some Phase.idle
          ∧ ∃ h, hwids[j2]? = some h ∧ h ≠ "" ∧ hf ≠ h := by
      intro j2 hj2
      have hne : j ≠ j2 := fun e => hjrest (e ▸ hj2)
      rw [List.getElem?_set_ne hne]
      exact hrest j2 (List.mem_cons_of_mem j hj2)
    obtain ⟨h1, h2, h3⟩ := ih ⟨updateDoc store idx hf,
      w.phases.set j (Phase.done (.responded hwidMismatch))⟩ rfl (List.nodup_cons.mp hnd).2
      hrest2
    refine ⟨h1, ?_, ?_⟩
    · intro j2 hj2
      rcases List.mem_cons.mp hj2 with rfl | hj2
      · rw [h3 j2 hjrest]
        exact List.getElem?_set_self hjlt
      · exact h2 j2 hj2
    · intro k hk
      have hkj : j ≠ k := fun e => hk (e ▸ List.mem_cons_self j rest)
      rw [h3 k (fun hc => hk (List.mem_cons_of_mem j hc))]
      exact List.getElem?_set_ne hkj

/-- Calls run one after another: the first binds, the others are rejected. -/
theorem runSchedule_serial {store : Store} {now : Int} {key : String}
    {hwids : List String} {idx : Nat} {r : KeyRecord}
    (hkey : key ≠ "")
    (hfind : queryKeys store key = some (idx, r))
    (hact : r.status = "active") (hexp : isExpired now r = false)
    (hunb : truthy r.hwid = false)
    (hne : ∀ h ∈ hwids, h ≠ "") (hnd : hwids.Nodup)
    (first : Nat) (rest : List Nat) (hord : (first :: rest).Nodup)
    (hlt : ∀ i ∈ first :: rest, i < hwids.length) :
    (runSchedule now key hwids (serial (first :: rest)) (initWorld store hwids)).phases[first]?
        = some (Phase.done (.responded validAndBound))
      ∧ (∀ j ∈ rest,
          (runSchedule now key hwids (serial (first :: rest))
            (initWorld store hwids)).phases[j]?
            = some (Phase.done (.responded hwidMismatch)))
      ∧ (runSchedule now key hwids (serial (first :: rest))
          (initWorld store hwids)).store[idx]?.bind KeyRecord.hwid = hwids[first]? := by
  have hidle : ∀ i, i < hwids.length → (initWorld store hwids).phases[i]? = some Phase.idle := by
    intro i hi
    simp [initWorld, List.getElem?_replicate, hi]
  have hflt : first < hwids.length := hlt first (List.mem_cons_self first rest)
  have hhf : hwids[first]? = some hwids[first] := List.getElem?_eq_getElem hflt
  have hfne : hwids[first] ≠ "" := hne _ (List.getElem?_mem hhf)
  have hfrest : first ∉ rest := (List.nodup_cons.mp hord).1
  have hrun1 : handler noFaults now (post key hwids[first]) store
      = ⟨.responded validAndBound, updateDoc store idx hwids[first],
          [.query key, .update idx hwids[first]]⟩ := by
    rw [handler_post now key _ store hkey hfne, hfind,
      evaluate_unbound now _ idx r hact hexp hunb]
  rw [runSchedule_serial_cons,
    stepCall_twice now key hwids _ first _ hkey hfne hhf (hidle first hflt)]
  have hstore : (initWorld store hwids).store = store := rfl
  rw [hstore, hrun1]
  have hrest : ∀ j ∈ rest,
      ((initWorld store hwids).phases.set first
          (Phase.done (.responded validAndBound)))[j]? = some Phase.idle
        ∧ ∃ h, hwids[j]? = some h ∧ h ≠ "" ∧ hwids[first] ≠ h := by
    intro j hj
    have hjlt : j < hwids.length := hlt j (List.mem_cons_of_mem first hj)
    have hfj : first ≠ j := fun e => hfrest (e ▸ hj)
    have hhj : hwids[j]? = some hwids[j] := List.getElem?_eq_getElem hjlt
    refine ⟨?_, hwids[j], hhj, hne _ (List.getElem?_mem hhj), ?_⟩
    · rw [List.getElem?_set_ne hfj]; exact hidle j hjlt
    · intro e
      exact hfj (List.getElem?_inj hflt hnd (by rw [hhf, hhj, e]))
  obtain ⟨h1, h2, h3⟩ := @runSchedule_serial_rest store now key hwids idx r hwids[first] hkey hfne hfind
    hact hexp rest ⟨updateDoc store idx hwids[first],
      (initWorld store hwids).phases.set first (Phase.done (.responded validAndBound))⟩
    rfl (List.nodup_cons.mp hord).2 hrest
  refine ⟨?_, h2, ?_⟩
  · rw [h3 first hfrest]
    exact List.getElem?_set_self (by simpa [initWorld] using hflt)
  · rw [h1, updateDoc_getElem?_eq, (queryKeys_some hfind).1, hhf]
    rfl

/-! ## C6 -/

/-- C6, as stated, fails: two calls with distinct HWIDs for the same active, unexpired,
unbound key, each querying before the other writes, both answer ValidAndBound (none
answers HwidMismatch), and the record ends bound to the HWID written last. -/
theorem race_two_winners :
    Complete ["DEVICE-1", "DEVICE-2"] [0, 1, 0, 1]
      ∧ (race 1000 "ABC123" ["DEVICE-1", "DEVICE-2"] [0, 1, 0, 1] [exampleRecord]).phases[0]?
        = some (.done (.responded validAndBound))
      ∧ (race 1000 "ABC123" ["DEVICE-1", "DEVICE-2"] [0, 1, 0, 1] [exampleRecord]).phases[1]?
        = some (.done (.responded validAndBound))
      ∧ (race 1000 "ABC123" ["DEVICE-1", "DEVICE-2"] [0, 1, 0, 1]
          [exampleRecord]).store[0]?.bind KeyRecord.hwid = some "DEVICE-2" := by
  refine ⟨?_, by decide, by decide, by decide⟩
  intro i hi
  have hi2 : i < 2 := hi
  interval_cases i <;> decide

/-- C6, amended (race on first bind): given N ≥ 1 calls with pairwise distinct non-empty
HWIDs against the same active, unexpired, unbound key, under every complete interleaving
of the calls' query and write steps every call answers ValidAndBound or HwidMismatch, at
least one answers ValidAndBound, and the record ends bound to the HWID of a call that
answered ValidAndBound; when the calls run one after another, in any order, the first
answers ValidAndBound, every other answers HwidMismatch and the record ends bound to the
first call's HWID. -/
theorem race_on_first_bind (store : Store) (now : Int) (key : String)
    (hwids : List String) (idx : Nat) (r : KeyRecord)
    (hkey : key ≠ "")
    (hfind : queryKeys store key = some (idx, r))
    (hact : r.status = "active") (hexp : isExpired now r = false)
    (hunb : truthy r.hwid = false)
    (hne : ∀ h ∈ hwids, h ≠ "") (hnd : hwids.Nodup) (hpos : 0 < hwids.length) :
    (∀ schedule, Complete hwids schedule →
        (∀ i, i < hwids.length →
          (race now key hwids schedule store).phases[i]?
              = some (.done (.responded validAndBound))
            ∨ (race now key hwids schedule store).phases[i]?
              = some (.done (.responded hwidMismatch)))
        ∧ ∃ (j : Nat) (h : String), hwids[j]? = some h
            ∧ (race now key hwids schedule store).phases[j]?
              = some (.done (.responded validAndBound))
            ∧ (race now key hwids schedule store).store = updateDoc store idx h
            ∧ (race now key hwids schedule store).store[idx]?.bind KeyRecord.hwid = some h)
      ∧ ∀ first rest, (first :: rest).Nodup → (∀ i ∈ first :: rest, i < hwids.length) →
          (race now key hwids (serial (first :: rest)) store).phases[first]?
              = some (.done (.responded validAndBound))
            ∧ (∀ j ∈ rest, (race now key hwids (serial (first :: rest)) store).phases[j]?
              = some (.done (.responded hwidMismatch)))
            ∧ (race now key hwids (serial (first :: rest)) store).store[idx]?.bind
              KeyRecord.hwid = hwids[first]? := by
  refine ⟨fun schedule hc => ?_, fun first rest hord hlt =>
    runSchedule_serial hkey hfind hact hexp hunb hne hnd first rest hord hlt⟩
  obtain ⟨hok, hst⟩ := @raceInv_run store now key hwids idx r hfind hact hexp hunb hne hnd schedule _
    (raceInv_init store hwids idx r)
  have hdone := runSchedule_complete_done now key hwids schedule store hc
  refine ⟨fun i hi => ?_, ?_⟩
  · obtain ⟨o, ho⟩ := hdone i hi
    rcases hok i _ ho with hc | hc | ⟨_, _, _, hc⟩ | hc | hc
    · cases hc
    · cases hc
    · cases hc
    · left; rw [← hc]; exact ho
    · right; rw [← hc]; exact ho
  · rcases hst with ⟨-, hall⟩ | ⟨j, h, hhj, hpj, hs⟩
    · obtain ⟨o, ho⟩ := hdone 0 hpos
      rcases hall 0 _ ho with hc | hc <;> cases hc
    · refine ⟨j, h, hhj, hpj, hs, ?_⟩
      show (runSchedule now key hwids schedule (initWorld store hwids)).store[idx]?.bind
        KeyRecord.hwid = some h
      rw [hs, updateDoc_getElem?_eq, (queryKeys_some hfind).1]
      rfl

/-- Instance of C6 amended: two calls fully overlapped, and the same two run one after another. -/
theorem race_on_first_bind_witness :
    ((∀ i, i < ["DEVICE-1", "DEVICE-2"].length →
          (race 1000 "ABC123" ["DEVICE-1", "DEVICE-2"] [0, 1, 0, 1] [exampleRecord]).phases[i]?
              = some (.done (.responded validAndBound))
            ∨ (race 1000 "ABC123" ["DEVICE-1", "DEVICE-2"] [0, 1, 0, 1]
                [exampleRecord]).phases[i]?
              = some (.done (.responded hwidMismatch)))
        ∧ ∃ (j : Nat) (h : String), ["DEVICE-1", "DEVICE-2"][j]? = some h
            ∧ (race 1000 "ABC123" ["DEVICE-1", "DEVICE-2"] [0, 1, 0, 1]
                [exampleRecord]).phases[j]?
              = some (.done (.responded validAndBound))
            ∧ (race 1000 "ABC123" ["DEVICE-1", "DEVICE-2"] [0, 1, 0, 1] [exampleRecord]).store
              = updateDoc [exampleRecord] 0 h
            ∧ (race 1000 "ABC123" ["DEVICE-1", "DEVICE-2"] [0, 1, 0, 1]
                [exampleRecord]).store[0]?.bind KeyRecord.hwid = some h)
      ∧ (race 1000 "ABC123" ["DEVICE-1", "DEVICE-2"] (serial [1, 0]) [exampleRecord]).phases[1]?
          = some (.done (.responded validAndBound))
      ∧ (∀ j ∈ [0], (race 1000 "ABC123" ["DEVICE-1", "DEVICE-2"] (serial [1, 0])
            [exampleRecord]).phases[j]?
          = some (.done (.responded hwidMismatch)))
      ∧ (race 1000 "ABC123" ["DEVICE-1", "DEVICE-2"] (serial [1, 0])
          [exampleRecord]).store[0]?.bind KeyRecord.hwid
          = ["DEVICE-1", "DEVICE-2"][1]? :=
  have hthm := race_on_first_bind [exampleRecord] 1000 "ABC123" ["DEVICE-1", "DEVICE-2"] 0
    exampleRecord (by decide) (by decide) (by decide) (by decide) (by decide) (by decide)
    (by decide) (by decide)
  ⟨hthm.1 [0, 1, 0, 1] (by
      intro i hi
      have hi2 : i < 2 := hi
      interval_cases i <;> decide),
    hthm.2 1 [0] (by decide) (by decide)⟩

/-! ## C11 -/

/-- C11 (store failure): for a well-formed POST request (non-empty key and HWID), when
the lookup fails the run answers 500 'Internal server error.' after the one query, and
when the lookup succeeds on a live record without HWID and the update of its `hwid`
fails the run answers 500 'Internal server error.' after the one query and the one
update; no operation is issued a second time and the store is as before the call. -/
theorem store_failure (faults : Faults) (now : Int) (key hwid : String) (store : Store)
    (hkey : key ≠ "") (hhwid : hwid ≠ "") :
    (faults.getFails = true →
        handler faults now (post key hwid) store
          = ⟨.responded ⟨500, "error", "Internal server error."⟩, store, [.query key]⟩)
      ∧ (faults.getFails = false → faults.updateFails = true →
          ∀ idx r, queryKeys store key = some (idx, r) → r.status = "active" →
            isExpired now r = false → truthy r.hwid = false →
            handler faults now (post key hwid) store
              = ⟨.responded ⟨500, "error", "Internal server error."⟩, store,
                  [.query key, .update idx hwid]⟩) := by
  refine ⟨fun hg => ?_, fun hg hu idx r hfind hact hexp hunb => ?_⟩
  · simp [handler, post, hkey, hhwid, hg]
    rfl
  · have hev := evaluate_unbound now hwid idx r hact hexp hunb
    simp [handler, post, hkey, hhwid, hg, hu, hfind, hev]
    rfl

/-- Instance of C11: the example key with the lookup failing, and with the update
failing. -/
theorem store_failure_witness :
    handler ⟨true, false⟩ 1000 (post "ABC123" "DEVICE-1") [exampleRecord]
        = ⟨.responded ⟨500, "error", "Internal server error."⟩, [exampleRecord],
            [.query "ABC123"]⟩
      ∧ handler ⟨false, true⟩ 1000 (post "ABC123" "DEVICE-1") [exampleRecord]
        = ⟨.responded ⟨500, "error", "Internal server error."⟩, [exampleRecord],
            [.query "ABC123", .update 0 "DEVICE-1"]⟩ :=
  ⟨(store_failure ⟨true, false⟩ 1000 "ABC123" "DEVICE-1" [exampleRecord] (by decide)
      (by decide)).1 rfl,
    (store_failure ⟨false, true⟩ 1000 "ABC123" "DEVICE-1" [exampleRecord] (by decide)
      (by decide)).2 rfl rfl 0 exampleRecord (by decide) (by decide) (by decide)
      (by decide)⟩

/-! ## C12 -/

theorem evaluate_respond_mem {now : Int} {hwid : String}
    {snap : Option (Nat × KeyRecord)} {resp : Response}
    (h : evaluate now hwid snap = .respond resp) : resp ∈ responses := by
  unfold evaluate at h
  split at h
  · cases h; decide
  · split_ifs at h <;> cases h <;> decide

/-- Whenever the method is not POST or a body is present, the handler answers with one
of the eight structured responses. -/
theorem handler_responds (faults : Faults) (now : Int) (req : Request) (store : Store)
    (h : req.method ≠ "POST" ∨ req.body ≠ none) :
    ∃ resp, resp ∈ responses ∧ (handler faults now req store).outcome = .responded resp := by
  obtain ⟨m, body⟩ := req
  unfold handler
  by_cases hm : m = "POST"
  swap
  · exact ⟨methodNotAllowed, by decide, by simp [hm]⟩
  subst hm
  simp only [ne_eq, not_true_eq_false, if_false]
  cases body with
  | none => simp at h
  | some body =>
    obtain ⟨k, hw⟩ := body
    cases k with
    | none => exact ⟨badRequest, by decide, rfl⟩
    | some key =>
      cases hw with
      | none => exact ⟨badRequest, by decide, rfl⟩
      | some hwid =>
        simp only
        by_cases hbad : key = "" ∨ hwid = ""
        · simp only [if_pos hbad]; exact ⟨badRequest, by decide, rfl⟩
        simp only [if_neg hbad]
        by_cases hg : faults.getFails = true
        · simp only [if_pos hg]; exact ⟨internalError, by decide, rfl⟩
        simp only [if_neg hg]
        cases hev : evaluate now hwid (queryKeys store key) with
        | respond resp => exact ⟨resp, evaluate_respond_mem hev, rfl⟩
        | bind idx =>
          simp only
          by_cases hu : faults.updateFails = true
          · simp only [if_pos hu]; exact ⟨internalError, by decide, rfl⟩
          · simp only [if_neg hu]; exact ⟨validAndBound, by decide, rfl⟩

/-- C12 (totality of the boundary) fails on a POST request whose body is absent: for
every store, current time and store health, the destructuring of line 20, outside the
`try` block, throws; the run ends with the exception, no store operation, and none of
the eight structured responses. -/
theorem absent_body_throws (faults : Faults) (now : Int) (store : Store) :
    handler faults now ⟨"POST", none⟩ store = ⟨.threw, store, []⟩
      ∧ ∀ resp, resp ∈ responses →
          (handler faults now ⟨"POST", none⟩ store).outcome ≠ .responded resp := by
  have hrun : handler faults now ⟨"POST", none⟩ store = ⟨.threw, store, []⟩ := by
    simp [handler]
  refine ⟨hrun, fun resp _ hc => ?_⟩
  rw [hrun] at hc
  cases hc

/-! ## C13 -/

theorem isExpired_false_iff (now : Int) (r : KeyRecord) :
    isExpired now r = false ↔ (r.expires_at = none ∨ ∃ e, r.expires_at = some e ∧ now ≤ e) := by
  unfold isExpired
  cases he : r.expires_at with
  | none => simp
  | some e => simp

/-- C13 (exact acceptance condition): for a POST request with non-empty key and HWID
on a healthy store, at every current time, the handler answers, and the status is 200
exactly when the query finds a record whose status is 'active', whose `expires_at` is
absent or not earlier than the current time, and whose `hwid` is unset (null, absent or
empty) or equal to the presented HWID; otherwise the status is a 4xx rejection. -/
theorem acceptance_condition (now : Int) (key hwid : String) (store : Store)
    (hkey : key ≠ "") (hhwid : hwid ≠ "") :
    ∃ resp, (handler noFaults now (post key hwid) store).outcome = .responded resp
      ∧ (resp.code = 200 ↔
          ∃ idx r, queryKeys store key = some (idx, r) ∧ r.status = "active"
            ∧ (r.expires_at = none ∨ ∃ e, r.expires_at = some e ∧ now ≤ e)
            ∧ (truthy r.hwid = false ∨ r.hwid = some hwid))
      ∧ (resp.code ≠ 200 → 400 ≤ resp.code ∧ resp.code < 500) := by
  rw [handler_post now key hwid store hkey hhwid]
  cases hq : queryKeys store key with
  | none =>
    refine ⟨notFound, rfl, ?_, fun _ => by decide⟩
    constructor
    · intro h; exact absurd h (by decide)
    · rintro ⟨idx, r, hc, -⟩; cases hc
  | some found =>
    obtain ⟨idx, r⟩ := found
    by_cases hlive : r.status = "active" ∧ isExpired now r = false
    · obtain ⟨hact, hexp⟩ := hlive
      rw [evaluate_live now hwid idx r hact hexp]
      have hexp2 := (isExpired_false_iff now r).mp hexp
      by_cases hunb : truthy r.hwid = false
      · rw [if_pos hunb]
        exact ⟨validAndBound, rfl, ⟨fun _ => ⟨idx, r, rfl, hact, hexp2, Or.inl hunb⟩,
          fun _ => rfl⟩, fun h => absurd rfl h⟩
      · rw [if_neg hunb]
        by_cases heq : r.hwid = some hwid
        · rw [if_pos heq]
          exact ⟨valid, rfl, ⟨fun _ => ⟨idx, r, rfl, hact, hexp2, Or.inr heq⟩,
            fun _ => rfl⟩, fun h => absurd rfl h⟩
        · rw [if_neg heq]
          refine ⟨hwidMismatch, rfl, ⟨fun h => absurd h (by decide), ?_⟩, fun _ => by decide⟩
          rintro ⟨idx2, r2, hc, -, -, hh⟩
          simp only [Option.some.injEq, Prod.mk.injEq] at hc
          obtain ⟨-, rfl⟩ := hc
          rcases hh with hh | hh
          · exact absurd hh hunb
          · exact absurd hh heq
    · have hcond : r.status ≠ "active" ∨ isExpired now r = true := by
        by_cases hact : r.status = "active"
        · right
          cases he : isExpired now r
          · exact absurd ⟨hact, he⟩ hlive
          · rfl
        · exact Or.inl hact
      have hev : evaluate now hwid (some (idx, r)) = .respond inactive := by
        simp only [evaluate, if_pos hcond]
      rw [hev]
      refine ⟨inactive, rfl, ⟨fun h => absurd h (by decide), ?_⟩, fun _ => by decide⟩
      rintro ⟨idx2, r2, hc, hact, hexp, -⟩
      simp only [Option.some.injEq, Prod.mk.injEq] at hc
      obtain ⟨-, rfl⟩ := hc
      exact absurd ⟨hact, (isExpired_false_iff now r).mpr hexp⟩ hlive

/-- Instance of C13: the example key bound to `DEVICE-1`, call from `DEVICE-2`. -/
theorem acceptance_condition_witness :
    ∃ resp, (handler noFaults 1000 (post "ABC123" "DEVICE-2") [boundRecord]).outcome
        = .responded resp
      ∧ (resp.code = 200 ↔
          ∃ idx r, queryKeys [boundRecord] "ABC123" = some (idx, r) ∧ r.status = "active"
            ∧ (r.expires_at = none ∨ ∃ e, r.expires_at = some e ∧ (1000 : Int) ≤ e)
            ∧ (truthy r.hwid = false ∨ r.hwid = some "DEVICE-2"))
      ∧ (resp.code ≠ 200 → 400 ≤ resp.code ∧ resp.code < 500) :=
  acceptance_condition 1000 "ABC123" "DEVICE-2" [boundRecord] (by decide) (by decide)

end ValidateKey
